import Mathlib

/-!
# Verification of the download-to-seekable-reader bridge

Shallow embedding of the repository's core (`src/source.rs`,
`src/http/reqwest_client.rs`) together with the parts of the reader handle
that only exist outside the provided sources (modelled from the spec where
so marked).  Byte offsets and lengths (`u64` in the source) are modelled as
`Nat`; the `i64` atomics (`requested_position`, `content_length`) as `Int`
with the `-1` sentinel kept explicit.
-/

namespace StreamDL

/-! ## Downloaded-range index (`rangemap::RangeSet<u64>`)

A range set is a list of half-open intervals `[lo, hi)`, kept sorted by
lower bound, pairwise disjoint and non-touching (rangemap coalesces any
inserted range with every stored range it overlaps or touches).  `rangemap`
panics when an empty range (`lo >= hi`) is inserted, hence `rsInsert`
returns `Option`. -/

/-- `(lo, hi)` stands for the half-open interval `[lo, hi)`. -/
abbrev RangeSet := List (Nat × Nat)

/-- Does the stored interval `r` overlap or touch the candidate `[a, b)`?
(rangemap merges touching ranges, so touching counts.) -/
def rsTouches (a b : Nat) (r : Nat × Nat) : Bool :=
  r.1 ≤ b && a ≤ r.2

/-- Insert an interval into the sorted-by-`lo` list. -/
def rsInsertSorted (r : Nat × Nat) : RangeSet → RangeSet
  | [] => [r]
  | x :: xs => if r.1 ≤ x.1 then r :: x :: xs else x :: rsInsertSorted r xs

/-- Coalescing insert of a non-empty range, mirroring
`RangeSet::insert(a..b)`: all stored ranges overlapping or touching
`[a, b)` are merged with it into one range. -/
def rsInsertRaw (a b : Nat) (s : RangeSet) : RangeSet :=
  let touching := s.filter (rsTouches a b)
  let lo := touching.foldl (fun m r => min m r.1) a
  let hi := touching.foldl (fun m r => max m r.2) b
  rsInsertSorted (lo, hi) (s.filter (fun r => !rsTouches a b r))

/-- `RangeSet::insert(a..b)`.  rangemap panics when `a ≥ b` (inserted
range must be non-empty); the panic is modelled by `none`. -/
def rsInsert (a b : Nat) (s : RangeSet) : Option RangeSet :=
  if a < b then some (rsInsertRaw a b s) else none

/-- `RangeSet::get(&p)`: the stored interval containing the point `p`,
if any. -/
def rsGet (p : Nat) (s : RangeSet) : Option (Nat × Nat) :=
  s.find? (fun r => r.1 ≤ p && p < r.2)

/-- Largest upper bound among the stored intervals (0 for the empty set). -/
def rsMaxUpper (s : RangeSet) : Nat :=
  s.foldl (fun m r => max m r.2) 0

/-- Well-formedness of the list representation: every interval non-empty,
sorted, and consecutive intervals separated by a gap of at least one
offset (rangemap coalesces touching ranges, so stored ranges never
touch). -/
def rsWFb : RangeSet → Bool
  | [] => true
  | [r] => r.1 < r.2
  | r :: s :: rest => r.1 < r.2 && r.2 < s.1 && rsWFb (s :: rest)

/-! ## Downloader task (`Source::download`, `src/source.rs` lines 112-204)

The downloader is embedded as a small-step interpreter.  Each atomic
action of the task (a `write_all`, a `fetch_add` on the `position` atomic,
a range-set insert, the requested-position check, a flush, a serviced or
skipped seek) appends one labelled state to a trace, so that claims about
intermediate visibility can be stated on the trace.  `tokio::select!`
nondeterminism is modelled by a schedule (`List SEv`) chosen by an
adversary; stream errors and local I/O failures are injected through the
items (`Item.err`, `wok = false`) and the `fok` flag (flush failure).
`.unwrap()` on any of these panics the task: modelled as a `dead` state
after which the interpreter stops. -/

/-- One item pulled from the `SourceStream`: an `Err` chunk, or an `Ok`
chunk of `sz` bytes whose `write_all` succeeds iff `wok`. -/
inductive Item
  | err
  | ok (sz : Nat) (wok : Bool)
deriving DecidableEq, Repr

/-- The downloader-visible shared state (`Source` fields; byte contents are
not tracked here, only offsets). -/
structure DSt where
  position : Nat
  downloaded : RangeSet
  requested : Int
  posFlag : Bool
  clFlag : Bool
  contentLength : Int
  streamPos : Nat
  writerCursor : Nat
  dead : Bool
deriving DecidableEq, Repr

/-- Labels for the atomic actions of the task. -/
inductive Act
  | write
  | flush
  | prefetchPub
  | pubPos
  | ins
  | reqClear
  | reqKeep
  | flagSet
  | seekService (pos : Nat)
  | seekSkip (pos : Nat)
  | die
deriving DecidableEq, Repr

/-- `const PREFETCH_BYTES: u64 = 1024 * 256;` (`src/source.rs` line 94). -/
def PREFETCH_BYTES : Nat := 1024 * 256

/-- Outcome of the prefetch loop (lines 129-150). -/
inductive POut
  | panicked
  | published (st : DSt) (rest : List Item)
  | ended (st : DSt)
deriving DecidableEq, Repr

/-- The prefetch loop: write each chunk, accumulate `initial_buffer`;
once it reaches the threshold, `fetch_add` the head and insert
`0..initial_buffer`, then break to the steady loop; if the stream ends
first, flush, `fetch_add`, insert `0..initial_buffer`, set the
position-reached flag and return. -/
def prefetchGo (th : Nat) (fok : Bool) (st : DSt) (ib : Nat) :
    List Item → List (Act × DSt) × POut
  | [] =>
    if fok then
      let st1 := { st with position := st.position + ib }
      match rsInsert 0 ib st1.downloaded with
      | none =>
        ([(.flush, st), (.pubPos, st1), (.die, { st1 with dead := true })], .panicked)
      | some d =>
        let st2 := { st1 with downloaded := d }
        let st3 := { st2 with posFlag := true }
        ([(.flush, st), (.pubPos, st1), (.ins, st2), (.flagSet, st3)], .ended st3)
    else ([(.die, { st with dead := true })], .panicked)
  | item :: rest =>
    match item with
    | .err => ([(.die, { st with dead := true })], .panicked)
    | .ok sz wok =>
      if wok then
        let stw := { st with writerCursor := st.writerCursor + sz,
                             streamPos := st.streamPos + sz }
        let ib1 := ib + sz
        if th ≤ ib1 then
          let st1 := { stw with position := stw.position + ib1 }
          match rsInsert 0 ib1 st1.downloaded with
          | none =>
            ([(.write, stw), (.prefetchPub, st1), (.die, { st1 with dead := true })],
             .panicked)
          | some d =>
            let st2 := { st1 with downloaded := d }
            ([(.write, stw), (.prefetchPub, st1), (.ins, st2)], .published st2 rest)
        else
          let next := prefetchGo th fok stw ib1 rest
          ((.write, stw) :: next.1, next.2)
      else ([(.die, { st with dead := true })], .panicked)

/-- The steady-state chunk-arrival handler (lines 154-173), split at its
atomic actions.  Note the source order: `write_all`, then
`position.fetch_add(chunk_len)` (the head is *published first*), then
`downloaded.insert(position..new_position)`, then the requested-position
check.  When the head reaches a pending request, the code stores `-1`
into `requested_position` and calls `cvar.notify_all()` *without setting
the flag of the `position_reached` pair*. -/
def chunkMicro (st : DSt) (sz : Nat) : List (Act × DSt) × Option DSt :=
  let stw := { st with writerCursor := st.writerCursor + sz,
                       streamPos := st.streamPos + sz }
  let st1 := { stw with position := stw.position + sz }
  match rsInsert stw.position (stw.position + sz) st1.downloaded with
  | none => ([(.write, stw), (.pubPos, st1), (.die, { st1 with dead := true })], none)
  | some d =>
    let st2 := { st1 with downloaded := d }
    if st2.requested > -1 ∧ (st1.position : Int) ≥ st2.requested then
      let st3 := { st2 with requested := -1 }
      ([(.write, stw), (.pubPos, st1), (.ins, st2), (.reqClear, st3)], some st3)
    else
      ([(.write, stw), (.pubPos, st1), (.ins, st2), (.reqKeep, st2)], some st2)

/-- The seek-request handler (lines 183-201): `do_seek` is true iff the
offset is not inside a downloaded range that also contains the current
head (`!range.contains(&position)`, or no range at all); when it is, seek
the stream, seek the write cursor, and store the head, all to `pos`.  The
returned boolean is `do_seek`. -/
def serviceSeek (st : DSt) (pos : Nat) : DSt × Bool :=
  match rsGet pos st.downloaded with
  | some range =>
    if range.1 ≤ st.position ∧ st.position < range.2 then (st, false)
    else ({ st with streamPos := pos, writerCursor := pos, position := pos }, true)
  | none => ({ st with streamPos := pos, writerCursor := pos, position := pos }, true)

/-- One ready arm of the `tokio::select!`: pull the next stream item, or
receive a seek request. -/
inductive SEv
  | pull
  | seek (pos : Nat)
deriving DecidableEq, Repr

/-- Outcome of a (finitely scheduled) run of the steady loop. -/
inductive DOut
  | died
  | finished (st : DSt)
  | ranOut (st : DSt)
deriving DecidableEq, Repr

/-- The steady-state select loop (lines 152-203) under a finite schedule. -/
def steadyGo (fok : Bool) (st : DSt) (items : List Item) :
    List SEv → List (Act × DSt) × DOut
  | [] => ([], .ranOut st)
  | .pull :: evs =>
    match items with
    | [] =>
      if fok then
        let st1 := { st with posFlag := true }
        ([(.flush, st), (.flagSet, st1)], .finished st1)
      else ([(.die, { st with dead := true })], .died)
    | .err :: _ => ([(.die, { st with dead := true })], .died)
    | .ok sz wok :: irest =>
      if wok then
        match chunkMicro st sz with
        | (tr, none) => (tr, .died)
        | (tr, some st2) =>
          let next := steadyGo fok st2 irest evs
          (tr ++ next.1, next.2)
      else ([(.die, { st with dead := true })], .died)
  | .seek pos :: evs =>
    match serviceSeek st pos with
    | (st2, true) =>
      let next := steadyGo fok st2 items evs
      ((.seekService pos, st2) :: next.1, next.2)
    | (st2, false) =>
      let next := steadyGo fok st2 items evs
      ((.seekSkip pos, st2) :: next.1, next.2)

/-- `Source::new`: fresh shared state (requested position starts at the
`-1` sentinel). -/
def initDSt : DSt :=
  { position := 0, downloaded := [], requested := -1, posFlag := false,
    clFlag := false, contentLength := 0, streamPos := 0, writerCursor := 0,
    dead := false }

/-- Lines 115-127: store the advertised content length (or `-1`), set the
retrieved flag and notify. -/
def setContentLength (cl : Option Nat) (st : DSt) : DSt :=
  match cl with
  | some n => { st with contentLength := (n : Int), clFlag := true }
  | none => { st with contentLength := -1, clFlag := true }

/-- Actions of the prefetch loop that precede any publication: the
per-chunk `write_all` and the end-of-stream `flush`. -/
def isPrePubAct (a : Act) : Bool :=
  match a with
  | .write => true
  | .flush => true
  | _ => false

/-- Actions that handle a seek request (servicing it or deciding to skip
it). -/
def isSeekAct (a : Act) : Bool :=
  match a with
  | .seekService _ => true
  | .seekSkip _ => true
  | _ => false

/-- The prefetch phase as run by `Source::download` (threshold is the
constant `PREFETCH_BYTES`). -/
def prefetchRun (cl : Option Nat) (fok : Bool) (items : List Item) :
    List (Act × DSt) × POut :=
  prefetchGo PREFETCH_BYTES fok (setContentLength cl initDSt) 0 items

/-- A complete run of `Source::download`: content-length publication,
prefetch, then the steady loop under schedule `evs`. -/
def dlRun (cl : Option Nat) (items : List Item) (evs : List SEv) (fok : Bool) :
    List (Act × DSt) × DOut :=
  match prefetchRun cl fok items with
  | (tr, .panicked) => (tr, .died)
  | (tr, .ended st) => (tr, .finished st)
  | (tr, .published st rest) =>
    let next := steadyGo fok st rest evs
    (tr ++ next.1, next.2)

/-- `SourceHandle::request_position`: the reader stores the offset it is
about to block on. -/
def requestPosition (st : DSt) (pos : Nat) : DSt :=
  { st with requested := (pos : Int) }

/-- `SourceHandle::wait_for_requested_position`: the reader sleeps in
`cvar.wait_while(&mut done, |done| !*done)` on the `position_reached`
pair.  A bare `notify_all` wakes the thread, but `wait_while` re-checks
the flag and goes back to sleep while it is `false`; the wait terminates
exactly when the flag has been set to `true`. -/
def waitReleased (st : DSt) : Bool := st.posFlag

/-! ## Session settings

Modelled from the spec: the `Settings` record is defined in the
repository's `lib.rs`, which is not among the provided sources; the tests
construct it as `Settings { prefetch_bytes }` and §6 of the spec lists its
single option. -/

/-- Modelled from the spec: `Settings { prefetch_bytes: u64 }`. -/
structure Settings where
  prefetch_bytes : Nat
deriving DecidableEq, Repr

/-! ## Default HTTP client (`src/http/reqwest_client.rs`) -/

/-- Response headers as a name-to-value association list (reqwest stores
header names lower-cased; values that fail `to_str` never reach the
parsers and are modelled as absent). -/
abbrev Headers := List (String × String)

/-- `HeaderMap::get` composed with `to_str` (`get_header_str`). -/
def getHeaderStr (h : Headers) (k : String) : Option String :=
  (h.find? (fun p => p.1 == k)).map (fun p => p.2)

/-- Digit-by-digit accumulation of `from_str` for unsigned integers. -/
def parseDigits (acc : Nat) : List Char → Option Nat
  | [] => some acc
  | c :: cs => if c.isDigit then parseDigits (acc * 10 + (c.toNat - 48)) cs else none

/-- `u64::from_str` / `u32::from_str`: an optional leading `+` followed by
at least one decimal digit, with the value below the width bound;
everything else (empty, stray characters, overflow) is a parse error. -/
def parseUnsigned (bound : Nat) (s : String) : Option Nat :=
  let cs := match s.data with
    | ('+' :: rest) => rest
    | l => l
  match cs with
  | [] => none
  | _ => (parseDigits 0 cs).bind (fun n => if n < bound then some n else none)

/-- `u64::MAX + 1`. -/
def U64_BOUND : Nat := 2 ^ 64

/-- `u32::MAX + 1`. -/
def U32_BOUND : Nat := 2 ^ 32

/-- `ClientResponse::content_length` for `reqwest::Response` (lines
31-37): read the `content-length` header and parse it as `u64`; a missing
header or a failed parse yields `None`. -/
def content_length (h : Headers) : Option Nat :=
  (getHeaderStr h "content-length").bind (fun v => parseUnsigned U64_BOUND v)

/-- The `.unwrap()` panics on the HEAD probe of `Client::get`. -/
inductive GetPanic
  | missingHeader
  | badParse
deriving DecidableEq, Repr

/-- `Client::get` (lines 74-92): after the HEAD probe the code runs
`head.headers().get("content-length").unwrap().to_str().unwrap().parse::<u32>().unwrap()`;
a missing header or a value that does not parse as a `u32` panics
(`Except.error`).  On success the ranged GET `bytes=0-<len>` is issued
and the parsed length is the range upper bound. -/
def clientGet (headHeaders : Headers) : Except GetPanic Nat :=
  match getHeaderStr headHeaders "content-length" with
  | none => .error .missingHeader
  | some v =>
    match parseUnsigned U32_BOUND v with
    | none => .error .badParse
    | some n => .ok n

/-! ## End-to-end byte delivery (downloader + backing file + reader)

A second embedding of `Source::download` that tracks byte *contents*
through the `BufWriter`-buffered backing file, composed with the
synchronous reader of the spec's §4.4, for the end-to-end delivery claim
(a full sequential read; the reader issues no seeks, so the seek channel
stays empty and is omitted).  The adversary schedules downloader polls
(with arbitrary chunk sizes) and reader calls in any interleaving. -/

/-- Byte strings (a `u8` is a `Nat`; values are never combined
arithmetically, so no modulus is needed). -/
abbrev Bytes := List Nat

/-- `BufWriter<File>` (default 8 KiB buffer) in the forward-write regime
of a seek-free download: `fileData` is the file contents, `buf` the
not-yet-flushed tail. -/
structure BW where
  fileData : Bytes
  buf : Bytes
deriving DecidableEq, Repr

/-- `std::io::BufWriter` default capacity. -/
def BUF_CAP : Nat := 8192

/-- `BufWriter::flush`. -/
def bwFlush (w : BW) : BW :=
  { fileData := w.fileData ++ w.buf, buf := [] }

/-- `BufWriter::write_all`: flush first when the incoming bytes would
overflow the buffer; then write straight through if the chunk is at least
the capacity (the buffer is necessarily empty in that case), else append
to the buffer. -/
def bwWriteAll (bytes : Bytes) (w : BW) : BW :=
  let w1 := if BUF_CAP < w.buf.length + bytes.length then bwFlush w else w
  if BUF_CAP ≤ bytes.length then { w1 with fileData := w1.fileData ++ bytes }
  else { w1 with buf := w1.buf ++ bytes }

/-- Phase of the downloader task. -/
inductive Phase
  | prefetch
  | steady
  | done
deriving DecidableEq, Repr

/-- Combined state: the downloader task, the shared backing file, and the
reader handle.  `written` counts the bytes pulled from the stream (the
stream of a fixed origin yields `origin[written..]`); `delivered` is the
concatenation of all bytes the reader's reads have returned. -/
structure Sys where
  written : Nat
  w : BW
  position : Nat
  downloaded : RangeSet
  initialBuffer : Nat
  phase : Phase
  posFlag : Bool
  requested : Int
  dead : Bool
  cursor : Nat
  delivered : Bytes
deriving DecidableEq, Repr

/-- `stream.next()` returned `None`: in prefetch, flush, `fetch_add` the
head by `initial_buffer` and insert `0..initial_buffer` (rangemap panics
when it is empty), set the flag, return; in the steady loop, flush, set
the flag, return. -/
def c1DlEnd (s : Sys) : Sys :=
  match s.phase with
  | .prefetch =>
    let w1 := bwFlush s.w
    let pos1 := s.position + s.initialBuffer
    match rsInsert 0 s.initialBuffer s.downloaded with
    | none => { s with w := w1, position := pos1, dead := true }
    | some d =>
      { s with w := w1, position := pos1, downloaded := d,
               posFlag := true, phase := .done }
  | .steady => { s with w := bwFlush s.w, posFlag := true, phase := .done }
  | .done => s

/-- The downloader polls the stream, which yields the next (at most)
`sz` bytes of the origin, or `None` when the origin is exhausted; the
handler follows `Source::download` (prefetch accumulation with the
`PREFETCH_BYTES` threshold, or the steady-state chunk arm). -/
def c1Chunk (origin : Bytes) (sz : Nat) (s : Sys) : Sys :=
  if s.dead then s else
  match s.phase with
  | .done => s
  | .prefetch =>
    let avail := origin.drop s.written
    if avail.isEmpty then c1DlEnd s
    else
      let bytes := avail.take sz
      let w1 := bwWriteAll bytes s.w
      let written1 := s.written + bytes.length
      let ib1 := s.initialBuffer + bytes.length
      if PREFETCH_BYTES ≤ ib1 then
        match rsInsert 0 ib1 s.downloaded with
        | none =>
          { s with w := w1, written := written1, initialBuffer := ib1,
                   position := s.position + ib1, dead := true }
        | some d =>
          { s with w := w1, written := written1, initialBuffer := ib1,
                   position := s.position + ib1, downloaded := d,
                   phase := .steady }
      else { s with w := w1, written := written1, initialBuffer := ib1 }
  | .steady =>
    let avail := origin.drop s.written
    if avail.isEmpty then c1DlEnd s
    else
      let bytes := avail.take sz
      let w1 := bwWriteAll bytes s.w
      let np := s.position + bytes.length
      match rsInsert s.position np s.downloaded with
      | none =>
        { s with w := w1, written := s.written + bytes.length,
                 position := np, dead := true }
      | some d =>
        let s2 := { s with w := w1, written := s.written + bytes.length,
                           position := np, downloaded := d }
        if s2.requested > -1 ∧ (np : Int) ≥ s2.requested then
          { s2 with requested := -1 }
        else s2

/-- Modelled from the spec: the blocking `read` of the reader handle
(§4.4; the handle lives in the repository's `lib.rs`, which is not among
the provided sources).  Let `p` be the cursor; `k` is the largest
contiguous byte count `≤ n` starting at `p` recorded in the range set.
If `k = 0`: when the downloader has terminated the read reports EOF,
otherwise the reader posts `p` as the requested position and blocks (a
blocked call is a no-op step here).  If `k > 0` the reader reads from its
own view of the backing file; the file holds only the bytes the
downloader has flushed, so the read returns `j = min k (fileLen - p)`
bytes (POSIX reads past end of file return short), appends them to
`delivered` and advances the cursor by `j`. -/
def c1Read (n : Nat) (s : Sys) : Sys :=
  let k := match rsGet s.cursor s.downloaded with
    | some r => min n (r.2 - s.cursor)
    | none => 0
  if k = 0 then
    if s.posFlag then s
    else { s with requested := (s.cursor : Int) }
  else
    let j := min k (s.w.fileData.length - s.cursor)
    { s with delivered := s.delivered ++ ((s.w.fileData.drop s.cursor).take j),
             cursor := s.cursor + j }

/-- One scheduled step: a downloader poll or a reader read. -/
inductive C1Ev
  | next (sz : Nat)
  | read (n : Nat)
deriving DecidableEq, Repr

/-- Initial combined state (fresh `Source::new`, empty backing file,
reader at offset 0). -/
def c1Init : Sys :=
  { written := 0, w := { fileData := [], buf := [] }, position := 0,
    downloaded := [], initialBuffer := 0, phase := .prefetch,
    posFlag := false, requested := -1, dead := false, cursor := 0,
    delivered := [] }

/-- Interpreter step. -/
def c1Step (origin : Bytes) (s : Sys) : C1Ev → Sys
  | .next sz => c1Chunk origin sz s
  | .read n => c1Read n s

/-- Run a whole interleaving. -/
def c1Run (origin : Bytes) (evs : List C1Ev) : Sys :=
  evs.foldl (c1Step origin) c1Init

/-- Invariant tying the combined end-to-end state to the origin bytes:
the stream has been consumed no further than the origin's length; the
flushed file contents followed by the write buffer are exactly the
consumed prefix of the origin; the bytes delivered to the reader are
exactly the origin prefix up to the read cursor; and the cursor never
passes the flushed file length. -/
def C1Inv (origin : Bytes) (s : Sys) : Prop :=
  s.written ≤ origin.length ∧
  s.w.fileData ++ s.w.buf = origin.take s.written ∧
  s.delivered = origin.take s.cursor ∧
  s.cursor ≤ s.w.fileData.length

/-! ## Concrete states used by witnesses and counterexamples -/

/-- The state in which the steady loop starts after a prefetch of exactly
`PREFETCH_BYTES` bytes in one chunk (content length 400000). -/
def preSteadySt : DSt :=
  { position := 262144, downloaded := [(0, 262144)], requested := -1,
    posFlag := false, clFlag := true, contentLength := 400000,
    streamPos := 262144, writerCursor := 262144, dead := false }

/-- A well-formed two-interval range set with the head inside the first
interval, for exercising the seek decision. -/
def seekExSt : DSt :=
  { position := 5, downloaded := [(0, 10), (20, 30)], requested := -1,
    posFlag := false, clFlag := true, contentLength := 100,
    streamPos := 5, writerCursor := 5, dead := false }

/-- State after the steady loop, started in `preSteadySt` with a pending
request for offset 262200, has processed one 100-byte chunk: the request
was cleared and `notify_all` invoked, but the `position_reached` flag was
never set. -/
def c5Post : DSt :=
  { position := 262244, downloaded := [(0, 262244)], requested := -1,
    posFlag := false, clFlag := true, contentLength := 400000,
    streamPos := 262244, writerCursor := 262244, dead := false }

/-- The dead state after an `Err` item is pulled in `preSteadySt`. -/
def c7Dead : DSt :=
  { position := 262144, downloaded := [(0, 262144)], requested := -1,
    posFlag := false, clFlag := true, contentLength := 400000,
    streamPos := 262144, writerCursor := 262144, dead := true }

/-- The dead state after the very first stream item is an `Err`, still
in the prefetch phase (content length 100). -/
def c7PreDead : DSt :=
  { position := 0, downloaded := [], requested := -1, posFlag := false,
    clFlag := true, contentLength := 100, streamPos := 0,
    writerCursor := 0, dead := true }

/-- The state right after the prefetch publication's `fetch_add` (one
262144-byte chunk, content length 300000): the head is already published
while the range set is still empty. -/
def c4PubSt : DSt :=
  { position := 262144, downloaded := [], requested := -1,
    posFlag := false, clFlag := true, contentLength := 300000,
    streamPos := 262144, writerCursor := 262144, dead := false }

/-- The downloader state just after content-length publication for an
empty (zero-byte) resource. -/
def c2St : DSt :=
  { position := 0, downloaded := [], requested := -1, posFlag := false,
    clFlag := true, contentLength := 0, streamPos := 0, writerCursor := 0,
    dead := false }

/-- The published prefetch state after one 262144-byte chunk (content
length 300000). -/
def c2PubSt : DSt :=
  { position := 262144, downloaded := [(0, 262144)], requested := -1,
    posFlag := false, clFlag := true, contentLength := 300000,
    streamPos := 262144, writerCursor := 262144, dead := false }

/-- Final state of the code's prefetch (threshold 262144) on the
four-byte stream `[2, 2]` with content length 10: the loop runs to stream
end without a mid-stream publication. -/
def c8End : DSt :=
  { position := 4, downloaded := [(0, 4)], requested := -1, posFlag := true,
    clFlag := true, contentLength := 10, streamPos := 4, writerCursor := 4,
    dead := false }

/-- Publication state of the same prefetch loop run with threshold 1
(the settings value of the counterexample) on the same stream: it
publishes after the first chunk. -/
def c8Pub : DSt :=
  { position := 2, downloaded := [(0, 2)], requested := -1, posFlag := false,
    clFlag := true, contentLength := 10, streamPos := 2, writerCursor := 2,
    dead := false }

/-- State after the steady loop, entered in `c2PubSt`, has serviced a
seek to offset 300000 (outside the downloaded prefix). -/
def c10SeekSt : DSt :=
  { position := 300000, downloaded := [(0, 262144)], requested := -1,
    posFlag := false, clFlag := true, contentLength := 300000,
    streamPos := 300000, writerCursor := 300000, dead := false }

/-! ## Range-set lemmas -/

theorem rsWFb_tail {r : Nat × Nat} {s : RangeSet} (h : rsWFb (r :: s) = true) :
    rsWFb s = true := by
  cases s with
  | nil => rfl
  | cons x xs =>
    simp only [rsWFb, Bool.and_eq_true] at h
    exact h.2

theorem rsWFb_head {r : Nat × Nat} {s : RangeSet} (h : rsWFb (r :: s) = true) :
    r.1 < r.2 := by
  cases s with
  | nil => simpa [rsWFb] using h
  | cons x xs =>
    simp only [rsWFb, Bool.and_eq_true, decide_eq_true_eq] at h
    exact h.1.1

theorem rsWFb_head_lt {r x : Nat × Nat} {xs : RangeSet}
    (h : rsWFb (r :: x :: xs) = true) : r.2 < x.1 := by
  simp only [rsWFb, Bool.and_eq_true, decide_eq_true_eq] at h
  exact h.1.2

/-- In a well-formed range set every interval past the head starts after
the head's upper bound. -/
theorem rsWFb_lo_ge {r : Nat × Nat} {s : RangeSet}
    (h : rsWFb (r :: s) = true) {x : Nat × Nat} (hx : x ∈ s) : r.2 < x.1 := by
  induction s generalizing r with
  | nil => cases hx
  | cons y ys ih =>
    rcases List.mem_cons.mp hx with rfl | hmem
    · exact rsWFb_head_lt h
    · have h2 := rsWFb_tail h
      have hy : r.2 < y.1 := rsWFb_head_lt h
      have hyy : y.1 < y.2 := rsWFb_head h2
      have := ih h2 hmem
      omega

/-- In a well-formed range set, any two stored intervals containing the
same point are equal. -/
theorem rsWFb_unique {s : RangeSet} (h : rsWFb s = true)
    {r r' : Nat × Nat} (hr : r ∈ s) (hr' : r' ∈ s) {p : Nat}
    (hp : r.1 ≤ p ∧ p < r.2) (hp' : r'.1 ≤ p ∧ p < r'.2) : r = r' := by
  induction s with
  | nil => cases hr
  | cons x xs ih =>
    rcases List.mem_cons.mp hr with rfl | hmem
    · rcases List.mem_cons.mp hr' with rfl | hmem'
      · rfl
      · have := rsWFb_lo_ge h hmem'
        omega
    · rcases List.mem_cons.mp hr' with rfl | hmem'
      · have := rsWFb_lo_ge h hmem
        omega
      · exact ih (rsWFb_tail h) hmem hmem'

/-- `rsGet` returns an interval that is stored and contains the point. -/
theorem rsGet_some_spec {p : Nat} {s : RangeSet} {r : Nat × Nat}
    (h : rsGet p s = some r) : r ∈ s ∧ r.1 ≤ p ∧ p < r.2 := by
  have hmem := List.mem_of_find?_eq_some h
  have hpred := List.find?_some h
  simp only [Bool.and_eq_true, decide_eq_true_eq] at hpred
  exact ⟨hmem, hpred⟩

/-- `rsGet` misses only when no stored interval contains the point. -/
theorem rsGet_none_spec {p : Nat} {s : RangeSet}
    (h : rsGet p s = none) {r : Nat × Nat} (hr : r ∈ s) :
    ¬(r.1 ≤ p ∧ p < r.2) := by
  intro hp
  have := List.find?_eq_none.mp h r hr
  simp only [Bool.and_eq_true, decide_eq_true_eq] at this
  exact this hp

/-- A max-fold never drops below its seed. -/
theorem rsFoldMax_seed_le (s : RangeSet) (m : Nat) :
    m ≤ s.foldl (fun m r => max m r.2) m := by
  induction s generalizing m with
  | nil => exact Nat.le_refl m
  | cons x xs ih =>
    calc m ≤ max m x.2 := Nat.le_max_left _ _
    _ ≤ xs.foldl (fun m r => max m r.2) (max m x.2) := ih _

/-- Every stored upper bound is below a max-fold over the list. -/
theorem rsFoldMax_mem_le {s : RangeSet} {r : Nat × Nat} (hr : r ∈ s) (m : Nat) :
    r.2 ≤ s.foldl (fun m r => max m r.2) m := by
  induction s generalizing m with
  | nil => cases hr
  | cons x xs ih =>
    rcases List.mem_cons.mp hr with rfl | hmem
    · simp only [List.foldl_cons]
      calc r.2 ≤ max m r.2 := Nat.le_max_right _ _
      _ ≤ xs.foldl (fun m r => max m r.2) (max m r.2) := rsFoldMax_seed_le _ _
    · simp only [List.foldl_cons]
      exact ih hmem _

theorem rsMem_le_maxUpper {s : RangeSet} {r : Nat × Nat} (hr : r ∈ s) :
    r.2 ≤ rsMaxUpper s :=
  rsFoldMax_mem_le hr 0

theorem rsMem_insertSorted (r : Nat × Nat) (s : RangeSet) :
    r ∈ rsInsertSorted r s := by
  induction s with
  | nil => simp [rsInsertSorted]
  | cons x xs ih =>
    by_cases h : r.1 ≤ x.1
    · simp [rsInsertSorted, if_pos h]
    · simp only [rsInsertSorted, if_neg h]
      exact List.mem_cons_of_mem _ ih

/-- After `rsInsertRaw a b`, the maximum upper bound is at least `b`. -/
theorem rsMaxUpper_insertRaw (a b : Nat) (s : RangeSet) :
    b ≤ rsMaxUpper (rsInsertRaw a b s) := by
  show b ≤ rsMaxUpper (rsInsertSorted
    ((List.filter (rsTouches a b) s).foldl (fun m r => min m r.1) a,
     (List.filter (rsTouches a b) s).foldl (fun m r => max m r.2) b)
    (s.filter (fun r => !rsTouches a b r)))
  have hb : b ≤ (List.filter (rsTouches a b) s).foldl (fun m r => max m r.2) b :=
    rsFoldMax_seed_le _ _
  refine Nat.le_trans hb ?_
  exact rsMem_le_maxUpper
    (r := ((List.filter (rsTouches a b) s).foldl (fun m r => min m r.1) a,
           (List.filter (rsTouches a b) s).foldl (fun m r => max m r.2) b))
    (rsMem_insertSorted _ _)


/-! ## Seek handler lemmas and claims C3, C6 -/

theorem serviceSeek_posFlag (st : DSt) (pos : Nat) :
    ((serviceSeek st pos).1).posFlag = st.posFlag := by
  unfold serviceSeek
  split
  · split <;> rfl
  · rfl

/-- **C3** (confirmed).  Seek decision predicate: in the steady loop, a
received seek offset `pos` triggers a re-request (stream seek, write
cursor seek, head store — all to `pos`) if and only if `pos` is not
contained in a downloaded range that also contains the current write
head; otherwise the state is untouched. -/
theorem C3_seek_decision (st : DSt) (pos : Nat)
    (hwf : rsWFb st.downloaded = true) :
    ((serviceSeek st pos).2 = true ↔
      ¬ ∃ r ∈ st.downloaded, (r.1 ≤ pos ∧ pos < r.2) ∧
          (r.1 ≤ st.position ∧ st.position < r.2)) ∧
    ((serviceSeek st pos).2 = true →
      (serviceSeek st pos).1 =
        { st with streamPos := pos, writerCursor := pos, position := pos }) ∧
    ((serviceSeek st pos).2 = false → (serviceSeek st pos).1 = st) := by
  cases hg : rsGet pos st.downloaded with
  | none =>
    have he : serviceSeek st pos =
        ({ st with streamPos := pos, writerCursor := pos, position := pos }, true) := by
      unfold serviceSeek
      rw [hg]
    rw [he]
    refine ⟨?_, fun _ => rfl, fun hf => by simp at hf⟩
    simp only [true_iff]
    rintro ⟨r, hr, hp, _⟩
    exact rsGet_none_spec hg hr hp
  | some range =>
    have hspec := rsGet_some_spec hg
    by_cases hc : range.1 ≤ st.position ∧ st.position < range.2
    · have he : serviceSeek st pos = (st, false) := by
        unfold serviceSeek
        rw [hg]
        exact if_pos hc
      rw [he]
      refine ⟨?_, fun ht => by simp at ht, fun _ => rfl⟩
      constructor
      · intro ht; simp at ht
      · intro hne
        exact absurd ⟨range, hspec.1, hspec.2, hc⟩ hne
    · have he : serviceSeek st pos =
          ({ st with streamPos := pos, writerCursor := pos, position := pos }, true) := by
        unfold serviceSeek
        rw [hg]
        exact if_neg hc
      rw [he]
      refine ⟨?_, fun _ => rfl, fun hf => by simp at hf⟩
      simp only [true_iff]
      rintro ⟨r, hr, hp, hh⟩
      have hrq : r = range := rsWFb_unique hwf hr hspec.1 hp hspec.2
      subst hrq
      exact hc hh

/-- Witness for C3 at a concrete well-formed state: offset 25 lies in
`[20, 30)` but the head 5 does not, so the downloader re-requests. -/
theorem C3_seek_decision_w :
    (serviceSeek seekExSt 25).2 = true ↔
      ¬ ∃ r ∈ seekExSt.downloaded, (r.1 ≤ 25 ∧ 25 < r.2) ∧
          (r.1 ≤ seekExSt.position ∧ seekExSt.position < r.2) :=
  (C3_seek_decision seekExSt 25 (by decide)).1

/-- **C6** (confirmed).  Seek frame condition: when servicing a seek
triggers a re-request, only the stream position, the write cursor and the
head change (all to the requested offset); the range set, the requested
position, the content length and both condition flags are untouched. -/
theorem C6_seek_frame (st : DSt) (pos : Nat)
    (h : (serviceSeek st pos).2 = true) :
    ((serviceSeek st pos).1).downloaded = st.downloaded ∧
    ((serviceSeek st pos).1).requested = st.requested ∧
    ((serviceSeek st pos).1).contentLength = st.contentLength ∧
    ((serviceSeek st pos).1).posFlag = st.posFlag ∧
    ((serviceSeek st pos).1).clFlag = st.clFlag ∧
    ((serviceSeek st pos).1).streamPos = pos ∧
    ((serviceSeek st pos).1).writerCursor = pos ∧
    ((serviceSeek st pos).1).position = pos := by
  cases hg : rsGet pos st.downloaded with
  | none =>
    have he : serviceSeek st pos =
        ({ st with streamPos := pos, writerCursor := pos, position := pos }, true) := by
      unfold serviceSeek
      rw [hg]
    rw [he]
    exact ⟨rfl, rfl, rfl, rfl, rfl, rfl, rfl, rfl⟩
  | some range =>
    by_cases hc : range.1 ≤ st.position ∧ st.position < range.2
    · have he : serviceSeek st pos = (st, false) := by
        unfold serviceSeek
        rw [hg]
        exact if_pos hc
      rw [he] at h
      simp at h
    · have he : serviceSeek st pos =
          ({ st with streamPos := pos, writerCursor := pos, position := pos }, true) := by
        unfold serviceSeek
        rw [hg]
        exact if_neg hc
      rw [he]
      exact ⟨rfl, rfl, rfl, rfl, rfl, rfl, rfl, rfl⟩

/-- Witness for C6: seeking to offset 50, outside every downloaded
range, re-requests and changes exactly the three fields. -/
theorem C6_seek_frame_w :
    ((serviceSeek seekExSt 50).1).downloaded = seekExSt.downloaded ∧
    ((serviceSeek seekExSt 50).1).requested = seekExSt.requested ∧
    ((serviceSeek seekExSt 50).1).contentLength = seekExSt.contentLength ∧
    ((serviceSeek seekExSt 50).1).posFlag = seekExSt.posFlag ∧
    ((serviceSeek seekExSt 50).1).clFlag = seekExSt.clFlag ∧
    ((serviceSeek seekExSt 50).1).streamPos = 50 ∧
    ((serviceSeek seekExSt 50).1).writerCursor = 50 ∧
    ((serviceSeek seekExSt 50).1).position = 50 :=
  C6_seek_frame seekExSt 50 (by decide)

/-! ## Prefetch-loop characterization (claims C2 and C8) -/

theorem rsInsertRaw_nil (a b : Nat) : rsInsertRaw a b [] = [(a, b)] := rfl

theorem isPrePubAct_write : isPrePubAct Act.write = true := rfl

/-- Invariant run of the prefetch loop from a state with an empty range
set, head 0, and write cursor equal to the accumulated byte count:
(i) every state before the publication point still has an empty range
set and head 0; (ii) every pre-publication write except possibly the
final one has cumulative bytes below the threshold; (iii) on a
mid-stream publication the head equals the cumulative byte count, the
range set is exactly `[0, head)`, and the threshold was reached;
(iv) on stream end with at least one byte, likewise. -/
theorem prefetchGo_spec (th : Nat) (fok : Bool) (items : List Item) :
    ∀ (st : DSt) (ib : Nat), st.downloaded = [] → st.position = 0 →
    st.writerCursor = ib →
    ((∀ e ∈ (prefetchGo th fok st ib items).1.takeWhile
        (fun e => isPrePubAct e.1), e.2.downloaded = [] ∧ e.2.position = 0)
    ∧ (∀ e ∈ ((prefetchGo th fok st ib items).1.takeWhile
        (fun e => isPrePubAct e.1)).dropLast, e.2.writerCursor < th)
    ∧ (∀ st2 rest, (prefetchGo th fok st ib items).2 = POut.published st2 rest →
        st2.position = st2.writerCursor ∧
        st2.downloaded = [(0, st2.position)] ∧ th ≤ st2.position)
    ∧ (∀ st2, (prefetchGo th fok st ib items).2 = POut.ended st2 →
        0 < st2.writerCursor →
        st2.position = st2.writerCursor ∧
        st2.downloaded = [(0, st2.position)])) := by
  induction items with
  | nil =>
    intro st ib hd hp hw
    cases fok with
    | false =>
      refine ⟨?_, ?_, ?_, ?_⟩
      · intro e he
        simp [prefetchGo, isPrePubAct, List.takeWhile] at he
      · intro e he
        simp [prefetchGo, isPrePubAct, List.takeWhile] at he
      · intro st2 rest hpub
        simp [prefetchGo] at hpub
      · intro st2 hend
        simp [prefetchGo] at hend
    | true =>
      cases ib with
      | zero =>
        have hins : rsInsert 0 0 st.downloaded = none := by
          simp [rsInsert]
        refine ⟨?_, ?_, ?_, ?_⟩
        · intro e he
          simp only [prefetchGo, hins, List.takeWhile, isPrePubAct] at he
          simp at he
          subst he
          exact ⟨hd, hp⟩
        · intro e he
          simp only [prefetchGo, hins, List.takeWhile, isPrePubAct] at he
          simp at he
        · intro st2 rest hpub
          simp only [prefetchGo, hins] at hpub
          cases hpub
        · intro st2 hend
          simp only [prefetchGo, hins] at hend
          cases hend
      | succ n =>
        have hins : rsInsert 0 (n + 1) st.downloaded =
            some [(0, n + 1)] := by
          rw [hd]
          simp [rsInsert, rsInsertRaw_nil]
        refine ⟨?_, ?_, ?_, ?_⟩
        · intro e he
          simp only [prefetchGo, hins, List.takeWhile, isPrePubAct] at he
          simp at he
          subst he
          exact ⟨hd, hp⟩
        · intro e he
          simp only [prefetchGo, hins, List.takeWhile, isPrePubAct] at he
          simp at he
        · intro st2 rest hpub
          simp only [prefetchGo, hins] at hpub
          cases hpub
        · intro st2 hend
          simp only [prefetchGo, hins] at hend
          cases hend with
          | refl =>
            intro _
            constructor
            · show st.position + (n + 1) = st.writerCursor
              omega
            · show ([(0, n + 1)] : RangeSet) =
                [(0, st.position + (n + 1))]
              rw [hp, Nat.zero_add]
  | cons item rest ih =>
    intro st ib hd hp hw
    cases item with
    | err =>
      refine ⟨?_, ?_, ?_, ?_⟩
      · intro e he
        simp [prefetchGo, isPrePubAct, List.takeWhile] at he
      · intro e he
        simp [prefetchGo, isPrePubAct, List.takeWhile] at he
      · intro st2 rest2 hpub
        simp [prefetchGo] at hpub
      · intro st2 hend
        simp [prefetchGo] at hend
    | ok sz wok =>
      cases wok with
      | false =>
        refine ⟨?_, ?_, ?_, ?_⟩
        · intro e he
          simp [prefetchGo, isPrePubAct, List.takeWhile] at he
        · intro e he
          simp [prefetchGo, isPrePubAct, List.takeWhile] at he
        · intro st2 rest2 hpub
          simp [prefetchGo] at hpub
        · intro st2 hend
          simp [prefetchGo] at hend
      | true =>
        by_cases hth : th ≤ ib + sz
        · -- publication (or a panic when the cumulative count is zero)
          cases hibs : ib + sz with
          | zero =>
            have hins : rsInsert 0 (ib + sz) st.downloaded = none := by
              rw [hibs]
              simp [rsInsert]
            refine ⟨?_, ?_, ?_, ?_⟩
            · intro e he
              simp only [prefetchGo, if_pos hth, hins, List.takeWhile,
                isPrePubAct] at he
              simp at he
              subst he
              exact ⟨hd, hp⟩
            · intro e he
              simp only [prefetchGo, if_pos hth, hins, List.takeWhile,
                isPrePubAct] at he
              simp at he
            · intro st2 rest2 hpub
              simp only [prefetchGo, if_pos hth, hins] at hpub
              cases hpub
            · intro st2 hend
              simp only [prefetchGo, if_pos hth, hins] at hend
              cases hend
          | succ n =>
            have hins : rsInsert 0 (ib + sz) st.downloaded =
                some [(0, ib + sz)] := by
              rw [hd, hibs]
              simp [rsInsert, rsInsertRaw_nil]
            refine ⟨?_, ?_, ?_, ?_⟩
            · intro e he
              simp only [prefetchGo, if_pos hth, hins, List.takeWhile,
                isPrePubAct] at he
              simp at he
              subst he
              exact ⟨hd, hp⟩
            · intro e he
              simp only [prefetchGo, if_pos hth, hins, List.takeWhile,
                isPrePubAct] at he
              simp at he
            · intro st2 rest2 hpub
              simp only [prefetchGo, if_pos hth, hins] at hpub
              cases hpub with
              | refl =>
                refine ⟨?_, ?_, ?_⟩
                · show st.position + (ib + sz) = st.writerCursor + sz
                  omega
                · show ([(0, ib + sz)] : RangeSet) =
                    [(0, st.position + (ib + sz))]
                  rw [hp, Nat.zero_add]
                · show th ≤ st.position + (ib + sz)
                  omega
            · intro st2 hend
              simp only [prefetchGo, if_pos hth, hins] at hend
              cases hend
        · -- below the threshold: recurse
          have hrec := ih { st with writerCursor := st.writerCursor + sz,
                                    streamPos := st.streamPos + sz }
            (ib + sz) hd hp (by simp; omega)
          refine ⟨?_, ?_, ?_, ?_⟩
          · intro e he
            simp only [prefetchGo, if_neg hth, List.takeWhile,
              isPrePubAct] at he
            simp at he
            rcases he with h1 | h2
            · subst h1
              exact ⟨hd, hp⟩
            · exact hrec.1 e h2
          · intro e he
            simp only [prefetchGo, if_neg hth, List.takeWhile_cons,
              isPrePubAct_write, if_true] at he
            rcases hcase : ((prefetchGo th fok
                { st with writerCursor := st.writerCursor + sz,
                          streamPos := st.streamPos + sz }
                (ib + sz) rest).1.takeWhile
                (fun e => isPrePubAct e.1)) with _ | ⟨x, xs⟩
            · rw [hcase] at he
              simp at he
            · rw [hcase] at he
              simp only [List.dropLast_cons₂, List.mem_cons] at he
              rcases he with h1 | h2
              · subst h1
                show st.writerCursor + sz < th
                omega
              · have h3 := hrec.2.1 e
                rw [hcase] at h3
                exact h3 h2
          · intro st2 rest2 hpub
            simp only [prefetchGo, if_neg hth] at hpub
            exact hrec.2.2.1 st2 rest2 hpub
          · intro st2 hend
            simp only [prefetchGo, if_neg hth] at hend
            exact hrec.2.2.2 st2 hend

/-- **C2** (amended).  During the prefetch phase no interval is inserted
and the write head is not advanced until the cumulative bytes reach the
threshold or the stream ends; at a mid-stream publication the head is
advanced by exactly the total written byte count, the single interval
`[0, n)` is inserted, and the threshold was reached; at stream end the
same holds *provided at least one byte was prefetched* (on a zero-byte
stream the empty-interval insert panics instead — see the
counterexample). -/
theorem C2_atomic_prefetch (cl : Option Nat) (fok : Bool) (items : List Item) :
    (∀ e ∈ (prefetchRun cl fok items).1.takeWhile
        (fun e => isPrePubAct e.1), e.2.downloaded = [] ∧ e.2.position = 0)
    ∧ (∀ st2 rest, (prefetchRun cl fok items).2 = POut.published st2 rest →
        st2.position = st2.writerCursor ∧
        st2.downloaded = [(0, st2.position)] ∧ PREFETCH_BYTES ≤ st2.position)
    ∧ (∀ st2, (prefetchRun cl fok items).2 = POut.ended st2 →
        0 < st2.writerCursor →
        st2.position = st2.writerCursor ∧
        st2.downloaded = [(0, st2.position)]) := by
  have hd : (setContentLength cl initDSt).downloaded = [] := by
    cases cl <;> rfl
  have hp : (setContentLength cl initDSt).position = 0 := by
    cases cl <;> rfl
  have hw : (setContentLength cl initDSt).writerCursor = 0 := by
    cases cl <;> rfl
  have h := prefetchGo_spec PREFETCH_BYTES fok items
    (setContentLength cl initDSt) 0 hd hp hw
  exact ⟨h.1, h.2.2.1, h.2.2.2⟩

/-- Witness for C2 at the one-chunk publication. -/
theorem C2_atomic_prefetch_w :
    c2PubSt.position = c2PubSt.writerCursor ∧
    c2PubSt.downloaded = [(0, c2PubSt.position)] ∧
    PREFETCH_BYTES ≤ c2PubSt.position :=
  (C2_atomic_prefetch (some 300000) true [Item.ok 262144 true]).2.1
    c2PubSt [] rfl

/-- **C2** (counterexample).  On a stream that ends before yielding any
byte, the prefetch end branch advances the head by `n = 0` and then
panics inserting the empty interval `0..0` (rangemap requires
`start < end`): the run dies instead of ending with `[0, 0)` recorded,
so the claim's publication (`.ended` with the interval inserted) never
happens. -/
theorem C2_cex :
    prefetchRun (some 0) true [] =
      ([(Act.flush, c2St), (Act.pubPos, c2St),
        (Act.die, { c2St with dead := true })], POut.panicked) := rfl

/-- **C8** (amended).  The byte threshold of the prefetch phase is the
hard-coded constant `PREFETCH_BYTES = 262144` — `Source::download` never
consults the session settings: a mid-stream publication happens exactly
once the cumulative byte count reaches the constant (every earlier
in-loop write is below it). -/
theorem C8_threshold_is_const (cl : Option Nat) (fok : Bool)
    (items : List Item) :
    PREFETCH_BYTES = 262144 ∧
    (∀ st2 rest, (prefetchRun cl fok items).2 = POut.published st2 rest →
        PREFETCH_BYTES ≤ st2.writerCursor) ∧
    (∀ e ∈ ((prefetchRun cl fok items).1.takeWhile
        (fun e => isPrePubAct e.1)).dropLast,
        e.2.writerCursor < PREFETCH_BYTES) := by
  have hd : (setContentLength cl initDSt).downloaded = [] := by
    cases cl <;> rfl
  have hp : (setContentLength cl initDSt).position = 0 := by
    cases cl <;> rfl
  have hw : (setContentLength cl initDSt).writerCursor = 0 := by
    cases cl <;> rfl
  have h := prefetchGo_spec PREFETCH_BYTES fok items
    (setContentLength cl initDSt) 0 hd hp hw
  refine ⟨rfl, ?_, h.2.1⟩
  intro st2 rest hpub
  have h2 := h.2.2.1 st2 rest hpub
  rw [← h2.1]
  exact h2.2.2

/-- Witness for C8's amended statement at the one-chunk publication. -/
theorem C8_threshold_is_const_w :
    PREFETCH_BYTES ≤ c2PubSt.writerCursor :=
  (C8_threshold_is_const (some 300000) true [Item.ok 262144 true]).2.1
    c2PubSt [] rfl

/-- **C8** (counterexample).  The prefetch threshold does not equal the
session settings' `prefetch_bytes`.  With `Settings { prefetch_bytes: 1 }`
and the chunk stream `[2, 2]` (content length 10), the claim demands a
publication once cumulative bytes (2) reach the configured value (1) —
as the same loop run with threshold 1 indeed does, publishing after the
first chunk — but the code's run uses the constant 262144 and reaches
stream end without any mid-stream publication. -/
theorem C8_cex :
    PREFETCH_BYTES ≠ (Settings.mk 1).prefetch_bytes ∧
    (prefetchRun (some 10) true [Item.ok 2 true, Item.ok 2 true]).2 =
      POut.ended c8End ∧
    (prefetchGo (Settings.mk 1).prefetch_bytes true
        (setContentLength (some 10) initDSt) 0
        [Item.ok 2 true, Item.ok 2 true]).2 =
      POut.published c8Pub [Item.ok 2 true] :=
  ⟨by decide, rfl, rfl⟩

/-! ## Claim C10: seeks are only handled after the prefetch -/

/-- The prefetch loop never polls the seek channel: no action of its
trace handles a seek. -/
theorem prefetchGo_no_seek (th : Nat) (fok : Bool) (items : List Item) :
    ∀ (st : DSt) (ib : Nat), ∀ e ∈ (prefetchGo th fok st ib items).1,
      isSeekAct e.1 = false := by
  induction items with
  | nil =>
    intro st ib e he
    cases fok with
    | false =>
      simp [prefetchGo] at he
      subst he
      rfl
    | true =>
      simp only [prefetchGo, if_true] at he
      cases hins : rsInsert 0 ib st.downloaded with
      | none =>
        rw [hins] at he
        simp at he
        rcases he with rfl | rfl | rfl <;> rfl
      | some d =>
        rw [hins] at he
        simp at he
        rcases he with rfl | rfl | rfl | rfl <;> rfl
  | cons item rest ih =>
    intro st ib e he
    cases item with
    | err =>
      simp [prefetchGo] at he
      subst he
      rfl
    | ok sz wok =>
      cases wok with
      | false =>
        simp [prefetchGo] at he
        subst he
        rfl
      | true =>
        simp only [prefetchGo, if_true] at he
        by_cases hth : th ≤ ib + sz
        · rw [if_pos hth] at he
          cases hins : rsInsert 0 (ib + sz) st.downloaded with
          | none =>
            rw [hins] at he
            simp at he
            rcases he with rfl | rfl | rfl <;> rfl
          | some d =>
            rw [hins] at he
            simp at he
            rcases he with rfl | rfl | rfl <;> rfl
        · rw [if_neg hth] at he
          simp only [List.mem_cons] at he
          rcases he with rfl | hmem
          · rfl
          · exact ih _ _ e hmem

/-- A mid-stream prefetch publication leaves a `prefetchPub` action in
the prefetch trace. -/
theorem prefetchGo_pub_mem (th : Nat) (fok : Bool) (items : List Item) :
    ∀ (st : DSt) (ib : Nat) (st2 : DSt) (rest2 : List Item),
      (prefetchGo th fok st ib items).2 = POut.published st2 rest2 →
      ∃ st1, (Act.prefetchPub, st1) ∈ (prefetchGo th fok st ib items).1 := by
  induction items with
  | nil =>
    intro st ib st2 rest2 h
    cases fok with
    | false => simp [prefetchGo] at h
    | true =>
      simp only [prefetchGo, if_true] at h
      cases hins : rsInsert 0 ib st.downloaded with
      | none =>
        rw [hins] at h
        cases h
      | some d =>
        rw [hins] at h
        cases h
  | cons item rest ih =>
    intro st ib st2 rest2 h
    cases item with
    | err => simp [prefetchGo] at h
    | ok sz wok =>
      cases wok with
      | false => simp [prefetchGo] at h
      | true =>
        simp only [prefetchGo, if_true] at h ⊢
        by_cases hth : th ≤ ib + sz
        · rw [if_pos hth] at h ⊢
          cases hins : rsInsert 0 (ib + sz) st.downloaded with
          | none =>
            rw [hins] at h
            cases h
          | some d =>
            exact ⟨{ st with position := st.position + (ib + sz),
                             streamPos := st.streamPos + sz,
                             writerCursor := st.writerCursor + sz }, by simp⟩
        · rw [if_neg hth] at h ⊢
          obtain ⟨st1, hmem⟩ := ih _ _ _ _ h
          exact ⟨st1, List.mem_cons_of_mem _ hmem⟩

/-- **C10** (confirmed).  Seek requests are never handled during the
prefetch phase: in every complete run, any seek-handling action comes
strictly after the prefetch publication (`prefetchPub`), and when the
stream ends during prefetch no seek is handled at all — the task
returns with every queued request unserviced. -/
theorem C10_seek_after_prefetch (cl : Option Nat) (items : List Item)
    (evs : List SEv) (fok : Bool) :
    (∀ (i : Nat) (e : Act × DSt), (dlRun cl items evs fok).1[i]? = some e →
       isSeekAct e.1 = true →
       ∃ j, j < i ∧ ∃ st1,
         (dlRun cl items evs fok).1[j]? = some (Act.prefetchPub, st1)) ∧
    (∀ st2, (prefetchRun cl fok items).2 = POut.ended st2 →
       ∀ e ∈ (dlRun cl items evs fok).1, isSeekAct e.1 = false) := by
  have hgo : prefetchRun cl fok items =
      prefetchGo PREFETCH_BYTES fok (setContentLength cl initDSt) 0 items := rfl
  cases hpr : prefetchRun cl fok items with
  | mk tr out =>
    have hnoseek : ∀ e ∈ tr, isSeekAct e.1 = false := by
      intro e he
      have := prefetchGo_no_seek PREFETCH_BYTES fok items
        (setContentLength cl initDSt) 0 e
      rw [← hgo, hpr] at this
      exact this he
    cases out with
    | panicked =>
      have hdl : dlRun cl items evs fok = (tr, DOut.died) := by
        unfold dlRun
        rw [hpr]
      rw [hdl]
      refine ⟨?_, ?_⟩
      · intro i e hget hseek
        have hmem : e ∈ tr := List.getElem?_mem hget
        rw [hnoseek e hmem] at hseek
        cases hseek
      · intro st2 hend
        simp at hend
    | ended stE =>
      have hdl : dlRun cl items evs fok = (tr, DOut.finished stE) := by
        unfold dlRun
        rw [hpr]
      rw [hdl]
      refine ⟨?_, ?_⟩
      · intro i e hget hseek
        have hmem : e ∈ tr := List.getElem?_mem hget
        rw [hnoseek e hmem] at hseek
        cases hseek
      · intro st2 _ e he
        exact hnoseek e he
    | published stP rest =>
      have hpub : ∃ st1, (Act.prefetchPub, st1) ∈ tr := by
        have h2 : (prefetchGo PREFETCH_BYTES fok (setContentLength cl initDSt)
            0 items).2 = POut.published stP rest := by
          rw [← hgo, hpr]
        obtain ⟨st1, hmem⟩ := prefetchGo_pub_mem PREFETCH_BYTES fok items
          (setContentLength cl initDSt) 0 stP rest h2
        refine ⟨st1, ?_⟩
        rw [← hgo, hpr] at hmem
        exact hmem
      have hdl : dlRun cl items evs fok =
          (tr ++ (steadyGo fok stP rest evs).1,
           (steadyGo fok stP rest evs).2) := by
        unfold dlRun
        rw [hpr]
      rw [hdl]
      refine ⟨?_, ?_⟩
      · intro i e hget hseek
        obtain ⟨st1, hmem⟩ := hpub
        obtain ⟨j, hj⟩ := List.mem_iff_getElem?.mp hmem
        have hjlt : j < tr.length := (List.getElem?_eq_some_iff.mp hj).1
        have hige : tr.length ≤ i := by
          by_contra hlt
          push_neg at hlt
          have : (tr ++ (steadyGo fok stP rest evs).1)[i]? = tr[i]? := by
            rw [List.getElem?_append]
            simp [hlt]
          rw [this] at hget
          have hmem2 : e ∈ tr := List.getElem?_mem hget
          rw [hnoseek e hmem2] at hseek
          cases hseek
        refine ⟨j, by omega, st1, ?_⟩
        have : (tr ++ (steadyGo fok stP rest evs).1)[j]? = tr[j]? := by
          rw [List.getElem?_append]
          simp [hjlt]
        rw [this]
        exact hj
      · intro st2 hend
        simp at hend

/-- Witness for C10 at a concrete run: a single queued seek to 300000
serviced right after the prefetch publication. -/
theorem C10_seek_after_prefetch_w :
    ∃ j, j < 3 ∧ ∃ st1,
      (dlRun (some 300000) [Item.ok 262144 true] [SEv.seek 300000]
        true).1[j]? = some (Act.prefetchPub, st1) :=
  (C10_seek_after_prefetch (some 300000) [Item.ok 262144 true]
    [SEv.seek 300000] true).1 3 (Act.seekService 300000, c10SeekSt) rfl rfl

/-! ## Claim C9: malformed content-length metadata -/

/-- **C9** (amended).  `ClientResponse::content_length` treats an absent
or unparseable `Content-Length` header as "unknown" (`none`) and never
panics; but `Client::get`'s HEAD probe panics exactly when the HEAD
response's `content-length` header is absent or does not parse as a
`u32` — the absence of the header *is* terminal on that code path. -/
theorem C9_content_length (h : Headers) :
    (content_length h = none ↔
       getHeaderStr h "content-length" = none ∨
       ∃ v, getHeaderStr h "content-length" = some v ∧
         parseUnsigned U64_BOUND v = none) ∧
    ((∃ er, clientGet h = Except.error er) ↔
       getHeaderStr h "content-length" = none ∨
       ∃ v, getHeaderStr h "content-length" = some v ∧
         parseUnsigned U32_BOUND v = none) := by
  constructor
  · cases hg : getHeaderStr h "content-length" with
    | none => simp [content_length, hg]
    | some v =>
      cases hp : parseUnsigned U64_BOUND v with
      | none => simp [content_length, hg, hp]
      | some n => simp [content_length, hg, hp]
  · cases hg : getHeaderStr h "content-length" with
    | none => simp [clientGet, hg]
    | some v =>
      cases hp : parseUnsigned U32_BOUND v with
      | none => simp [clientGet, hg, hp]
      | some n => simp [clientGet, hg, hp]

/-- Witness for C9: a malformed header value is treated as unknown. -/
theorem C9_content_length_w :
    content_length [("content-length", "abc")] = none :=
  (C9_content_length [("content-length", "abc")]).1.mpr
    (Or.inr ⟨"abc", rfl, rfl⟩)

/-- **C9** (counterexample).  The claim says an absent or malformed
header is never terminal on any code path of the client, including the
initial GET's HEAD probe.  But `Client::get` panics (`.unwrap()`) when
the HEAD response has no `content-length`, and also when the value does
not fit a `u32` — even though the same value is perfectly fine for
`ClientResponse::content_length`. -/
theorem C9_cex :
    clientGet [] = Except.error GetPanic.missingHeader ∧
    clientGet [("content-length", "4294967296")] =
      Except.error GetPanic.badParse ∧
    content_length [] = none ∧
    content_length [("content-length", "4294967296")] = some 4294967296 :=
  ⟨rfl, rfl, rfl, rfl⟩

/-! ## Claim C5: the position-reached release is lost -/

/-- **C5** (code_bug).  After a prefetch of 262144 bytes, a reader posts
requested position 262200 and blocks in `wait_for_requested_position`; a
100-byte chunk arrives, making the new head 262244 ≥ 262200.  The
downloader clears the request back to the `-1` sentinel and calls
`notify_all` (the `reqClear` action) — but it never sets the flag of
the `position_reached` pair, and `wait_while` re-checks that flag, so
the blocked reader is *not* released: `waitReleased` stays `false`.
The claim (and the spec) say the reader is released at this point. -/
theorem C5_notify_lost :
    (prefetchRun (some 400000) true [Item.ok 262144 true]).2 =
      POut.published preSteadySt [] ∧
    (steadyGo true (requestPosition preSteadySt 262200) [Item.ok 100 true]
        [SEv.pull]).2 = DOut.ranOut c5Post ∧
    c5Post.requested = -1 ∧
    (Act.reqClear, c5Post) ∈
      (steadyGo true (requestPosition preSteadySt 262200) [Item.ok 100 true]
        [SEv.pull]).1 ∧
    waitReleased c5Post = false := by
  refine ⟨rfl, rfl, rfl, ?_, rfl⟩
  decide

/-! ## Claim C7: error termination -/

theorem chunkMicro_none_getLast (st : DSt) (sz : Nat)
    (h : (chunkMicro st sz).2 = none) :
    ∃ stD, (chunkMicro st sz).1.getLast? = some (Act.die, stD) ∧
      stD.posFlag = st.posFlag ∧ stD.dead = true := by
  simp only [chunkMicro] at h ⊢
  cases hi : rsInsert st.position (st.position + sz) st.downloaded with
  | none =>
    exact ⟨_, rfl, rfl, rfl⟩
  | some d =>
    rw [hi] at h
    split at h
    · simp_all
    · split at h <;> simp_all

theorem chunkMicro_some_posFlag (st : DSt) (sz : Nat) (st2 : DSt)
    (h : (chunkMicro st sz).2 = some st2) : st2.posFlag = st.posFlag := by
  simp only [chunkMicro] at h
  cases hi : rsInsert st.position (st.position + sz) st.downloaded with
  | none =>
    rw [hi] at h
    simp at h
  | some d =>
    rw [hi] at h
    split at h
    · simp_all
    · split at h <;>
        (simp only [Prod.snd, Option.some.injEq] at h; subst h; rfl)

/-- When the steady loop dies from a stream error, a failed `write_all`,
or a failed flush, the very last action is the panic and the
`position_reached` flag, still `false`, is never set. -/
theorem steadyGo_died_getLast (fok : Bool) (st : DSt) (items : List Item)
    (evs : List SEv)
    (hflag : st.posFlag = false)
    (hdied : (steadyGo fok st items evs).2 = DOut.died) :
    ∃ stD, (steadyGo fok st items evs).1.getLast? = some (Act.die, stD) ∧
      stD.posFlag = false ∧ waitReleased stD = false ∧ stD.dead = true := by
  induction evs generalizing st items with
  | nil => simp [steadyGo] at hdied
  | cons ev evs ih =>
    cases ev with
    | pull =>
      cases items with
      | nil =>
        cases fok with
        | true => simp [steadyGo] at hdied
        | false => exact ⟨{ st with dead := true }, rfl, hflag, hflag, rfl⟩
      | cons i irest =>
        cases i with
        | err =>
          exact ⟨{ st with dead := true }, rfl, hflag, hflag, rfl⟩
        | ok sz wok =>
          cases wok with
          | false => exact ⟨{ st with dead := true }, rfl, hflag, hflag, rfl⟩
          | true =>
            simp only [steadyGo] at hdied ⊢
            cases hcm : chunkMicro st sz with
            | mk tr ost =>
              cases ost with
              | none =>
                have hld := chunkMicro_none_getLast st sz (by rw [hcm])
                rw [hcm] at hld
                obtain ⟨stD, h1, h2, h3⟩ := hld
                exact ⟨stD, h1, h2.trans hflag, h2.trans hflag, h3⟩
              | some st2 =>
                have hpf : st2.posFlag = false :=
                  (chunkMicro_some_posFlag st sz st2 (by rw [hcm])).trans hflag
                rw [hcm] at hdied
                have hdied2 : (steadyGo fok st2 irest evs).2 = DOut.died := hdied
                obtain ⟨stD, h1, h2, h3, h4⟩ := ih st2 irest hpf hdied2
                refine ⟨stD, ?_, h2, h3, h4⟩
                have hne : (steadyGo fok st2 irest evs).1 ≠ [] := by
                  intro hnil
                  rw [hnil] at h1
                  simp at h1
                show (tr ++ (steadyGo fok st2 irest evs).1).getLast? =
                  some (Act.die, stD)
                rw [List.getLast?_append_of_ne_nil _ hne]
                exact h1
    | seek pos =>
      simp only [steadyGo] at hdied ⊢
      cases hs : serviceSeek st pos with
      | mk st2 b =>
        have hpf : st2.posFlag = false := by
          have hsp := serviceSeek_posFlag st pos
          rw [hs] at hsp
          rw [hsp, hflag]
        cases b with
        | true =>
          rw [hs] at hdied
          have hdied2 : (steadyGo fok st2 items evs).2 = DOut.died := hdied
          obtain ⟨stD, h1, h2, h3, h4⟩ := ih st2 items hpf hdied2
          refine ⟨stD, ?_, h2, h3, h4⟩
          have hne : (steadyGo fok st2 items evs).1 ≠ [] := by
            intro hnil
            rw [hnil] at h1
            simp at h1
          show ((Act.seekService pos, st2) ::
              (steadyGo fok st2 items evs).1).getLast? = some (Act.die, stD)
          have hc : (Act.seekService pos, st2) :: (steadyGo fok st2 items evs).1 =
              [(Act.seekService pos, st2)] ++ (steadyGo fok st2 items evs).1 := rfl
          rw [hc, List.getLast?_append_of_ne_nil _ hne]
          exact h1
        | false =>
          rw [hs] at hdied
          have hdied2 : (steadyGo fok st2 items evs).2 = DOut.died := hdied
          obtain ⟨stD, h1, h2, h3, h4⟩ := ih st2 items hpf hdied2
          refine ⟨stD, ?_, h2, h3, h4⟩
          have hne : (steadyGo fok st2 items evs).1 ≠ [] := by
            intro hnil
            rw [hnil] at h1
            simp at h1
          show ((Act.seekSkip pos, st2) ::
              (steadyGo fok st2 items evs).1).getLast? = some (Act.die, stD)
          have hc : (Act.seekSkip pos, st2) :: (steadyGo fok st2 items evs).1 =
              [(Act.seekSkip pos, st2)] ++ (steadyGo fok st2 items evs).1 := rfl
          rw [hc, List.getLast?_append_of_ne_nil _ hne]
          exact h1

/-- When the prefetch loop dies — from an `Err` item, a failed
`write_all`, the failed end-of-stream flush, or the empty-interval
insert — the very last action is the panic and the `position_reached`
flag, still `false`, is never set. -/
theorem prefetchGo_panicked_getLast (th : Nat) (fok : Bool)
    (items : List Item) :
    ∀ (st : DSt) (ib : Nat), st.posFlag = false →
      (prefetchGo th fok st ib items).2 = POut.panicked →
      ∃ stD, (prefetchGo th fok st ib items).1.getLast? =
          some (Act.die, stD) ∧
        stD.posFlag = false ∧ stD.dead = true := by
  induction items with
  | nil =>
    intro st ib hflag hp
    cases fok with
    | false => exact ⟨{ st with dead := true }, rfl, hflag, rfl⟩
    | true =>
      simp only [prefetchGo, if_true] at hp ⊢
      cases hins : rsInsert 0 ib st.downloaded with
      | none =>
        exact ⟨_, rfl, hflag, rfl⟩
      | some d =>
        rw [hins] at hp
        cases hp
  | cons item rest ih =>
    intro st ib hflag hp
    cases item with
    | err => exact ⟨{ st with dead := true }, rfl, hflag, rfl⟩
    | ok sz wok =>
      cases wok with
      | false => exact ⟨{ st with dead := true }, rfl, hflag, rfl⟩
      | true =>
        simp only [prefetchGo, if_true] at hp ⊢
        by_cases hth : th ≤ ib + sz
        · rw [if_pos hth] at hp ⊢
          cases hins : rsInsert 0 (ib + sz) st.downloaded with
          | none =>
            exact ⟨_, rfl, hflag, rfl⟩
          | some d =>
            rw [hins] at hp
            cases hp
        · rw [if_neg hth] at hp ⊢
          have hrec := ih { st with writerCursor := st.writerCursor + sz,
                                    streamPos := st.streamPos + sz }
            (ib + sz) hflag hp
          obtain ⟨stD, h1, h2, h3⟩ := hrec
          refine ⟨stD, ?_, h2, h3⟩
          have hne : (prefetchGo th fok
              { st with writerCursor := st.writerCursor + sz,
                        streamPos := st.streamPos + sz }
              (ib + sz) rest).1 ≠ [] := by
            intro hnil
            rw [hnil] at h1
            simp at h1
          have hc : (Act.write,
              ({ st with writerCursor := st.writerCursor + sz,
                         streamPos := st.streamPos + sz } : DSt)) ::
              (prefetchGo th fok
                { st with writerCursor := st.writerCursor + sz,
                          streamPos := st.streamPos + sz }
                (ib + sz) rest).1 =
              [(Act.write,
                ({ st with writerCursor := st.writerCursor + sz,
                           streamPos := st.streamPos + sz } : DSt))] ++
              (prefetchGo th fok
                { st with writerCursor := st.writerCursor + sz,
                          streamPos := st.streamPos + sz }
                (ib + sz) rest).1 := rfl
          rw [hc, List.getLast?_append_of_ne_nil _ hne]
          exact h1

/-- The prefetch loop never touches the `position_reached` flag before a
mid-stream publication. -/
theorem prefetchGo_published_posFlag (th : Nat) (fok : Bool)
    (items : List Item) :
    ∀ (st : DSt) (ib : Nat) (st2 : DSt) (rest2 : List Item),
      (prefetchGo th fok st ib items).2 = POut.published st2 rest2 →
      st2.posFlag = st.posFlag := by
  induction items with
  | nil =>
    intro st ib st2 rest2 h
    cases fok with
    | false => simp [prefetchGo] at h
    | true =>
      simp only [prefetchGo, if_true] at h
      cases hins : rsInsert 0 ib st.downloaded with
      | none =>
        rw [hins] at h
        cases h
      | some d =>
        rw [hins] at h
        cases h
  | cons item rest ih =>
    intro st ib st2 rest2 h
    cases item with
    | err => simp [prefetchGo] at h
    | ok sz wok =>
      cases wok with
      | false => simp [prefetchGo] at h
      | true =>
        simp only [prefetchGo, if_true] at h
        by_cases hth : th ≤ ib + sz
        · rw [if_pos hth] at h
          cases hins : rsInsert 0 (ib + sz) st.downloaded with
          | none =>
            rw [hins] at h
            cases h
          | some d =>
            rw [hins] at h
            cases h with
            | refl => rfl
        · rw [if_neg hth] at h
          exact ih { st with writerCursor := st.writerCursor + sz,
                             streamPos := st.streamPos + sz }
            (ib + sz) st2 rest2 h

/-- **C7** (corrected, positive part).  Whenever a complete run of
`Source::download` dies — a stream `Err` item, a failed `write_all`, or
a failed flush, in the prefetch phase or in the steady loop — the very
last action of the task is the panic: no retry and no further stream
pull happens, and the `position_reached` flag, still `false`, is never
set, so a reader blocked in `wait_for_requested_position` is *not*
released (the error is not surfaced as an end of stream). -/
theorem C7_terminal (cl : Option Nat) (items : List Item) (evs : List SEv)
    (fok : Bool) (hdied : (dlRun cl items evs fok).2 = DOut.died) :
    ∃ stD, (dlRun cl items evs fok).1.getLast? = some (Act.die, stD) ∧
      stD.posFlag = false ∧ waitReleased stD = false ∧ stD.dead = true := by
  have hgo : prefetchRun cl fok items =
      prefetchGo PREFETCH_BYTES fok (setContentLength cl initDSt) 0 items := rfl
  have hpf0 : (setContentLength cl initDSt).posFlag = false := by
    cases cl <;> rfl
  cases hpr : prefetchRun cl fok items with
  | mk tr out =>
    cases out with
    | panicked =>
      have hdl : dlRun cl items evs fok = (tr, DOut.died) := by
        unfold dlRun
        rw [hpr]
      rw [hdl]
      have hp2 : (prefetchGo PREFETCH_BYTES fok (setContentLength cl initDSt)
          0 items).2 = POut.panicked := by
        rw [← hgo, hpr]
      obtain ⟨stD, h1, h2, h3⟩ := prefetchGo_panicked_getLast PREFETCH_BYTES
        fok items (setContentLength cl initDSt) 0 hpf0 hp2
      rw [← hgo, hpr] at h1
      exact ⟨stD, h1, h2, h2, h3⟩
    | ended stE =>
      have hdl : dlRun cl items evs fok = (tr, DOut.finished stE) := by
        unfold dlRun
        rw [hpr]
      rw [hdl] at hdied
      cases hdied
    | published stP rest =>
      have hdl : dlRun cl items evs fok =
          (tr ++ (steadyGo fok stP rest evs).1,
           (steadyGo fok stP rest evs).2) := by
        unfold dlRun
        rw [hpr]
      rw [hdl] at hdied ⊢
      have hpub2 : (prefetchGo PREFETCH_BYTES fok (setContentLength cl initDSt)
          0 items).2 = POut.published stP rest := by
        rw [← hgo, hpr]
      have hpf : stP.posFlag = false := by
        rw [prefetchGo_published_posFlag PREFETCH_BYTES fok items
          (setContentLength cl initDSt) 0 stP rest hpub2]
        exact hpf0
      obtain ⟨stD, h1, h2, h3, h4⟩ :=
        steadyGo_died_getLast fok stP rest evs hpf hdied
      refine ⟨stD, ?_, h2, h3, h4⟩
      have hne : (steadyGo fok stP rest evs).1 ≠ [] := by
        intro hnil
        rw [hnil] at h1
        simp at h1
      rw [List.getLast?_append_of_ne_nil _ hne]
      exact h1

/-- Witness for C7 at a concrete run that dies in the *prefetch* phase:
the very first stream item is an `Err`. -/
theorem C7_terminal_w :
    ∃ stD, (dlRun (some 100) [Item.err] [] true).1.getLast? =
        some (Act.die, stD) ∧
      stD.posFlag = false ∧ waitReleased stD = false ∧ stD.dead = true :=
  C7_terminal (some 100) [Item.err] [] true rfl

/-- **C7** (counterexample).  An `Err` item kills the task
(`bytes.unwrap()` panics) — shown both in the steady state after a full
prefetch and during the prefetch phase itself: the run dies with the
`position_reached` flag still unset, so a reader blocked in
`wait_for_requested_position` stays blocked — it does *not* observe an
end of stream, contradicting the claim that the error is surfaced to the
reader as a premature end of stream. -/
theorem C7_cex :
    steadyGo true preSteadySt [Item.err] [SEv.pull] =
      ([(Act.die, c7Dead)], DOut.died) ∧
    waitReleased c7Dead = false ∧ c7Dead.dead = true ∧
    dlRun (some 100) [Item.err] [] true =
      ([(Act.die, c7PreDead)], DOut.died) ∧
    waitReleased c7PreDead = false ∧ c7PreDead.dead = true := by
  exact ⟨rfl, rfl, rfl, rfl, rfl, rfl⟩

/-! ## Claim C4: head is published before the insert -/

/-- **C4** (counterexample).  A reachable trace point outside any seek
servicing — the `fetch_add` of the prefetch publication after one
262144-byte chunk — at which the published write head (262144) strictly
exceeds the maximum upper bound of the intervals recorded in the range
set (0: the set is still empty; the insert comes only after the
`fetch_add`).  The claim asserts the published head never exceeds that
bound. -/
theorem C4_cex :
    (prefetchRun (some 300000) true [Item.ok 262144 true]).1[1]? =
      some (Act.prefetchPub, c4PubSt) ∧
    rsMaxUpper c4PubSt.downloaded < c4PubSt.position := by
  exact ⟨rfl, by decide⟩

/-- **C4** (amended).  The steady-state chunk handler publishes the head
*before* the insert: right after the `fetch_add` (trace index 1) the head
already reads `old + len` while the range set is unchanged; right after
the insert (trace index 2) the head equals the inserted interval's upper
bound and no longer exceeds the range set's maximum upper bound. -/
theorem C4_publish_then_insert (st : DSt) (sz : Nat) (hsz : 0 < sz) :
    (∃ st1, (chunkMicro st sz).1[1]? = some (Act.pubPos, st1) ∧
       st1.position = st.position + sz ∧ st1.downloaded = st.downloaded) ∧
    (∃ st2, (chunkMicro st sz).1[2]? = some (Act.ins, st2) ∧
       st2.position = st.position + sz ∧
       st2.position ≤ rsMaxUpper st2.downloaded) := by
  have hi : rsInsert st.position (st.position + sz) st.downloaded =
      some (rsInsertRaw st.position (st.position + sz) st.downloaded) := by
    unfold rsInsert
    rw [if_pos (by omega)]
  simp only [chunkMicro, hi]
  constructor
  · split
    · exact ⟨_, rfl, rfl, rfl⟩
    · exact ⟨_, rfl, rfl, rfl⟩
  · split
    · exact ⟨_, rfl, rfl, rsMaxUpper_insertRaw _ _ _⟩
    · exact ⟨_, rfl, rfl, rsMaxUpper_insertRaw _ _ _⟩

/-- Witness for C4's amended statement at the concrete post-prefetch
state with a 100-byte chunk. -/
theorem C4_publish_then_insert_w :
    (∃ st1, (chunkMicro preSteadySt 100).1[1]? = some (Act.pubPos, st1) ∧
       st1.position = preSteadySt.position + 100 ∧
       st1.downloaded = preSteadySt.downloaded) ∧
    (∃ st2, (chunkMicro preSteadySt 100).1[2]? = some (Act.ins, st2) ∧
       st2.position = preSteadySt.position + 100 ∧
       st2.position ≤ rsMaxUpper st2.downloaded) :=
  C4_publish_then_insert preSteadySt 100 (by decide)

/-! ## Claim C1: end-to-end delivery -/

theorem bwWriteAll_cat (bytes : Bytes) (w : BW) :
    (bwWriteAll bytes w).fileData ++ (bwWriteAll bytes w).buf =
      w.fileData ++ w.buf ++ bytes := by
  unfold bwWriteAll bwFlush
  by_cases h1 : BUF_CAP < w.buf.length + bytes.length
  · rw [if_pos h1]
    by_cases h2 : BUF_CAP ≤ bytes.length
    · rw [if_pos h2]
      simp
    · rw [if_neg h2]
      simp
  · rw [if_neg h1]
    by_cases h2 : BUF_CAP ≤ bytes.length
    · rw [if_pos h2]
      have hb : w.buf = [] := by
        have : w.buf.length = 0 := by
          unfold BUF_CAP at h1 h2
          omega
        exact List.length_eq_zero.mp this
      simp [hb]
    · rw [if_neg h2]
      simp

theorem bwWriteAll_fileLen (bytes : Bytes) (w : BW) :
    w.fileData.length ≤ (bwWriteAll bytes w).fileData.length := by
  unfold bwWriteAll bwFlush
  by_cases h1 : BUF_CAP < w.buf.length + bytes.length
  · rw [if_pos h1]
    by_cases h2 : BUF_CAP ≤ bytes.length
    · rw [if_pos h2]
      simp
    · rw [if_neg h2]
      simp
  · rw [if_neg h1]
    by_cases h2 : BUF_CAP ≤ bytes.length
    · rw [if_pos h2]
      simp
    · rw [if_neg h2]

/-- Appending the next slice of the origin to the consumed prefix yields
the longer consumed prefix. -/
theorem take_append_chunk (origin : Bytes) (w sz : Nat) :
    origin.take w ++ (origin.drop w).take sz =
      origin.take (w + ((origin.drop w).take sz).length) := by
  by_cases hsz : sz ≤ (origin.drop w).length
  · have hl : ((origin.drop w).take sz).length = sz := by
      rw [List.length_take]
      omega
    rw [hl, List.take_add]
  · have hl : ((origin.drop w).take sz).length = (origin.drop w).length := by
      rw [List.length_take]
      omega
    rw [hl, List.take_add]
    congr 1
    rw [List.take_length]
    exact List.take_of_length_le (by omega)

/-- Under the invariant the flushed file contents are a prefix of the
origin. -/
theorem fileData_is_take (origin : Bytes) (s : Sys)
    (h2 : s.w.fileData ++ s.w.buf = origin.take s.written)
    (h1 : s.written ≤ origin.length) :
    s.w.fileData = origin.take s.w.fileData.length := by
  have hlen : s.w.fileData.length ≤ s.written := by
    have hc := congrArg List.length h2
    simp only [List.length_append, List.length_take] at hc
    omega
  calc s.w.fileData
      = (s.w.fileData ++ s.w.buf).take s.w.fileData.length :=
        (List.take_left _ _).symm
    _ = (origin.take s.written).take s.w.fileData.length := by rw [h2]
    _ = origin.take (min s.w.fileData.length s.written) :=
        List.take_take _ _ _
    _ = origin.take s.w.fileData.length := by rw [Nat.min_eq_left hlen]

/-- The downloader poll preserves the invariant. -/
theorem c1Chunk_inv (origin : Bytes) (sz : Nat) (s : Sys)
    (h : C1Inv origin s) : C1Inv origin (c1Chunk origin sz s) := by
  obtain ⟨h1, h2, h3, h4⟩ := h
  have hendcase : C1Inv origin (c1DlEnd s) := by
    simp only [c1DlEnd, bwFlush]
    split
    · cases hins : rsInsert 0 s.initialBuffer s.downloaded with
      | none =>
        exact ⟨h1, by simpa using h2, h3,
          by simp only [List.length_append]; omega⟩
      | some d =>
        exact ⟨h1, by simpa using h2, h3,
          by simp only [List.length_append]; omega⟩
    · exact ⟨h1, by simpa using h2, h3,
        by simp only [List.length_append]; omega⟩
    · exact ⟨h1, h2, h3, h4⟩
  have hwl : ∀ bytes : Bytes,
      s.cursor ≤ (bwWriteAll bytes s.w).fileData.length :=
    fun bytes => Nat.le_trans h4 (bwWriteAll_fileLen bytes s.w)
  have hcat : ∀ sz2 : Nat,
      (bwWriteAll ((origin.drop s.written).take sz2) s.w).fileData ++
        (bwWriteAll ((origin.drop s.written).take sz2) s.w).buf =
      origin.take (s.written +
        ((origin.drop s.written).take sz2).length) := by
    intro sz2
    rw [bwWriteAll_cat, h2, take_append_chunk]
  have hwr : ∀ sz2 : Nat,
      s.written + ((origin.drop s.written).take sz2).length ≤
        origin.length := by
    intro sz2
    have := List.length_take sz2 (origin.drop s.written)
    have := List.length_drop s.written origin
    omega
  simp only [c1Chunk]
  by_cases hdead : s.dead
  · rw [if_pos hdead]
    exact ⟨h1, h2, h3, h4⟩
  · rw [if_neg hdead]
    split
    · exact ⟨h1, h2, h3, h4⟩
    · -- prefetch arm
      by_cases hav : (origin.drop s.written).isEmpty
      · rw [if_pos hav]
        exact hendcase
      · rw [if_neg hav]
        split
        · split
          · exact ⟨hwr sz, hcat sz, h3, hwl _⟩
          · exact ⟨hwr sz, hcat sz, h3, hwl _⟩
        · exact ⟨hwr sz, hcat sz, h3, hwl _⟩
    · -- steady arm
      by_cases hav : (origin.drop s.written).isEmpty
      · rw [if_pos hav]
        exact hendcase
      · rw [if_neg hav]
        split
        · exact ⟨hwr sz, hcat sz, h3, hwl _⟩
        · split
          · exact ⟨hwr sz, hcat sz, h3, hwl _⟩
          · exact ⟨hwr sz, hcat sz, h3, hwl _⟩

/-- The reader read preserves the invariant. -/
theorem c1Read_inv (origin : Bytes) (n : Nat) (s : Sys)
    (h : C1Inv origin s) : C1Inv origin (c1Read n s) := by
  obtain ⟨h1, h2, h3, h4⟩ := h
  unfold c1Read
  cases hg : rsGet s.cursor s.downloaded with
  | none =>
    simp only [if_pos rfl]
    by_cases hf : s.posFlag
    · rw [if_pos hf]
      exact ⟨h1, h2, h3, h4⟩
    · rw [if_neg hf]
      exact ⟨h1, h2, h3, h4⟩
  | some r =>
    by_cases hk : min n (r.2 - s.cursor) = 0
    · rw [if_pos hk]
      by_cases hf : s.posFlag
      · rw [if_pos hf]
        exact ⟨h1, h2, h3, h4⟩
      · rw [if_neg hf]
        exact ⟨h1, h2, h3, h4⟩
    · rw [if_neg hk]
      refine ⟨h1, h2, ?_, ?_⟩
      · -- delivered grows by exactly the next origin slice
        have hfd := fileData_is_take origin s h2 h1
        have hj : min (min n (r.2 - s.cursor))
            (s.w.fileData.length - s.cursor) ≤
            s.w.fileData.length - s.cursor := Nat.min_le_right _ _
        set j := min (min n (r.2 - s.cursor))
          (s.w.fileData.length - s.cursor) with hjdef
        show s.delivered ++ (s.w.fileData.drop s.cursor).take j =
          origin.take (s.cursor + j)
        rw [h3, hfd, List.drop_take, List.take_take, List.take_add]
        congr 2
        omega
      · show s.cursor + min (min n (r.2 - s.cursor))
          (s.w.fileData.length - s.cursor) ≤ s.w.fileData.length
        omega

/-- The invariant holds along every run. -/
theorem c1Run_inv (origin : Bytes) (evs : List C1Ev) :
    C1Inv origin (c1Run origin evs) := by
  have hinit : C1Inv origin c1Init := by
    refine ⟨?_, ?_, ?_, ?_⟩ <;> simp [c1Init, C1Inv]
  suffices hgen : ∀ s, C1Inv origin s →
      C1Inv origin (evs.foldl (c1Step origin) s) from hgen c1Init hinit
  induction evs with
  | nil => intro s hs; exact hs
  | cons e es ih =>
    intro s hs
    cases e with
    | next sz => exact ih _ (c1Chunk_inv origin sz s hs)
    | read n => exact ih _ (c1Read_inv origin n s hs)

/-- **C1** (confirmed; reader modelled from the spec).  End-to-end
delivery: for every origin and every interleaving of downloader polls
(with arbitrary chunk sizes) and reader reads, the bytes delivered so
far are always exactly the origin prefix up to the read cursor; in
particular, after a successful full read to EOF (cursor at the origin's
length) the concatenation of all bytes delivered across the reads equals
the origin resource. -/
theorem C1_end_to_end (origin : Bytes) (evs : List C1Ev) :
    (c1Run origin evs).delivered =
      origin.take (c1Run origin evs).cursor ∧
    ((c1Run origin evs).cursor = origin.length →
      (c1Run origin evs).delivered = origin) := by
  have h := c1Run_inv origin evs
  refine ⟨h.2.2.1, fun hc => ?_⟩
  rw [h.2.2.1, hc, List.take_length]

/-- Witness for C1: a three-byte origin, one chunk, stream end, one
read reaching EOF. -/
theorem C1_end_to_end_w :
    (c1Run [1, 2, 3] [C1Ev.next 3, C1Ev.next 1, C1Ev.read 5]).delivered =
      [1, 2, 3] :=
  (C1_end_to_end [1, 2, 3] [C1Ev.next 3, C1Ev.next 1, C1Ev.read 5]).2 rfl

end StreamDL
